import Mathlib

/-!
Verification of the change-discovery and review-orchestration pipeline of the
`zhen-ai-codereview` repository: a shallow embedding in Lean 4 of
`local/scanner.py` (pattern matching, filesystem scan, git change extraction)
and `agent/reviewer.py` (the review orchestrator and report assembly), together
with proofs of the specified properties.

External collaborators (the LLM completion service, the git library, the
filesystem) are modelled at their call boundary: the review and summarization
calls become oracle functions, filesystem reads become lookups in an explicit
file-list, and the git library's diff operations are embedded following their
documented behaviour.
-/

deriving instance DecidableEq for Except

namespace ZhenReview

/- ================================================================
   Pattern matcher: embedding of Python `fnmatch.fnmatch` as used by
   `LocalScanner._should_include` (POSIX case preservation: `normcase`
   is the identity, so it is omitted).
   `fnmatch.translate` turns the pattern into an anchored regex:
   `*` -> `.*`, `?` -> `.`, `[seq]` / `[!seq]` -> character classes
   (with `a-b` ranges); an unterminated `[` is a literal; a `]` placed
   directly after `[` or `[!` belongs to the class body.
   ================================================================ -/

inductive GlobTok where
  | star : GlobTok
  | anyChar : GlobTok
  | lit : Char → GlobTok
  | cls : Bool → List (Char × Char) → GlobTok
deriving DecidableEq, Repr

/-- Character-class body as matched ranges: `a-b` pairs, single chars as
degenerate ranges (mirrors the class translation of `fnmatch.translate`). -/
def parseRanges : List Char → List (Char × Char)
  | [] => []
  | a :: '-' :: b :: rest => (a, b) :: parseRanges rest
  | a :: rest => (a, a) :: parseRanges rest

/-- Split a character list at the first `]`, returning the body before it and
the remainder after it; `none` when no `]` occurs (unterminated class). -/
def findClose : List Char → Option (List Char × List Char)
  | [] => none
  | ']' :: rest => some ([], rest)
  | c :: rest =>
    match findClose rest with
    | none => none
    | some (body, r) => some (c :: body, r)

/-- Fuelled tokenizer for the glob pattern; each step consumes at least one
character, so fuel equal to the pattern length is always sufficient. -/
def parseGlobF : Nat → List Char → List GlobTok
  | 0, _ => []
  | _ + 1, [] => []
  | n + 1, '*' :: rest => GlobTok.star :: parseGlobF n rest
  | n + 1, '?' :: rest => GlobTok.anyChar :: parseGlobF n rest
  | n + 1, '[' :: '!' :: ']' :: rest =>
    (match findClose rest with
     | some (body, r) => GlobTok.cls true (parseRanges (']' :: body)) :: parseGlobF n r
     | none => GlobTok.lit '[' :: parseGlobF n ('!' :: ']' :: rest))
  | n + 1, '[' :: '!' :: rest =>
    (match findClose rest with
     | some (body, r) => GlobTok.cls true (parseRanges body) :: parseGlobF n r
     | none => GlobTok.lit '[' :: parseGlobF n ('!' :: rest))
  | n + 1, '[' :: ']' :: rest =>
    (match findClose rest with
     | some (body, r) => GlobTok.cls false (parseRanges (']' :: body)) :: parseGlobF n r
     | none => GlobTok.lit '[' :: parseGlobF n (']' :: rest))
  | n + 1, '[' :: rest =>
    (match findClose rest with
     | some (body, r) => GlobTok.cls false (parseRanges body) :: parseGlobF n r
     | none => GlobTok.lit '[' :: parseGlobF n rest)
  | n + 1, c :: rest => GlobTok.lit c :: parseGlobF n rest

def parseGlob (s : List Char) : List GlobTok := parseGlobF s.length s

def memRanges (c : Char) : List (Char × Char) → Bool
  | [] => false
  | (lo, hi) :: rest => (decide (lo ≤ c) && decide (c ≤ hi)) || memRanges c rest

/-- Fuelled anchored matcher over the token list (the translated regex is
matched with `re.match` against the whole name, `\Z`-anchored). Every
recursive call shrinks `toks.length + s.length`, so fuel
`toks.length + s.length + 1` is always sufficient. -/
def matchToksF : Nat → List GlobTok → List Char → Bool
  | 0, _, _ => false
  | _ + 1, [], [] => true
  | _ + 1, [], _ :: _ => false
  | n + 1, GlobTok.star :: ts, s =>
    matchToksF n ts s ||
      (match s with
       | [] => false
       | _ :: cs => matchToksF n (GlobTok.star :: ts) cs)
  | n + 1, GlobTok.anyChar :: ts, _ :: cs => matchToksF n ts cs
  | _ + 1, GlobTok.anyChar :: _, [] => false
  | n + 1, GlobTok.lit d :: ts, c :: cs => (d == c) && matchToksF n ts cs
  | _ + 1, GlobTok.lit _ :: _, [] => false
  | n + 1, GlobTok.cls neg rs :: ts, c :: cs => (memRanges c rs != neg) && matchToksF n ts cs
  | _ + 1, GlobTok.cls _ _ :: _, [] => false

def matchToks (ts : List GlobTok) (s : List Char) : Bool :=
  matchToksF (ts.length + s.length + 1) ts s

/-- Embedding of `fnmatch.fnmatch(name, pattern)` (arguments here in pattern-first order). -/
def fnmatch (pattern name : String) : Bool :=
  matchToks (parseGlob pattern.data) name.data

/- ================================================================
   Configuration (`ReviewConfig` in config.py; only the fields the
   scanner consumes).
   ================================================================ -/

structure ReviewConfig where
  include_patterns : List String
  exclude_patterns : List String
  max_file_size : Nat
deriving DecidableEq, Repr

/-- Embedding of `LocalScanner._should_include`: the exclude loop runs first and returns
`False` on the first match; then the include loop returns `True` on the first
match; the fall-through returns `False`. -/
def should_include (cfg : ReviewConfig) (filename : String) : Bool :=
  if cfg.exclude_patterns.any (fun p => fnmatch p filename) then false
  else cfg.include_patterns.any (fun p => fnmatch p filename)

/- ================================================================
   Filesystem scanner (`LocalScanner.scan_directory`, `_read_file`).
   The filesystem is embedded as an explicit list of files in traversal
   order; a `none` size models an `OSError` from `os.path.getsize`, a
   `none` content models an `IOError` from `open`/`read` (both caught
   and turned into a dropped file by `_read_file`).
   ================================================================ -/

structure FileInfo where
  path : String
  relative_path : String
  content : String
  size : Nat
deriving DecidableEq, Repr

structure FSFile where
  dirParts : List String
  name : String
  size : Option Nat
  content : Option String
deriving DecidableEq, Repr

def joinParts : List String → String → String
  | [], n => n
  | p :: ps, n => p ++ "/" ++ joinParts ps n

/-- Embedding of `LocalScanner._read_file`: stat the file (failure caught, file dropped);
drop it when the size exceeds `max_file_size`; read it (failure caught, file
dropped); otherwise build the `FileInfo` record. -/
def read_file (cfg : ReviewConfig) (f : FSFile) (path rel : String) : Option FileInfo :=
  match f.size with
  | none => none
  | some sz =>
    if sz > cfg.max_file_size then none
    else
      match f.content with
      | none => none
      | some c => some ⟨path, rel, c, sz⟩

/-- The directory-skip test of the recursive walk: any component of
`Path(root).parts` (the absolute walk root, i.e. the scan root's own
components followed by the components below it) that starts with `.` or is one
of the build/dependency names causes the whole directory to be skipped. -/
def skipDir (rootParts dirParts : List String) : Bool :=
  (rootParts ++ dirParts).any
    (fun part => part.startsWith "." ||
      part ∈ ["node_modules", "venv", "__pycache__", "dist", "build"])

/-- Embedding of `LocalScanner.scan_directory` with `recursive=True`: walk every file (in
traversal order), skip files inside skipped directories, test the include and
exclude patterns against the BASE NAME (`filename` from `os.walk`), and read
accepted files; files `_read_file` drops are omitted. -/
def scan_directory (cfg : ReviewConfig) (rootParts : List String)
    (fs : List FSFile) : List FileInfo :=
  fs.filterMap (fun f =>
    if skipDir rootParts f.dirParts then none
    else if should_include cfg f.name then
      read_file cfg f (joinParts (rootParts ++ f.dirParts) f.name)
        (joinParts f.dirParts f.name)
    else none)

/-- Embedding of `LocalScanner.scan_directory` with `recursive=False`: only immediate
children of the root (`os.listdir`), same base-name pattern test, no
directory-denylist check. -/
def scan_directory_flat (cfg : ReviewConfig) (rootParts : List String)
    (fs : List FSFile) : List FileInfo :=
  fs.filterMap (fun f =>
    if f.dirParts = [] then
      if should_include cfg f.name then
        read_file cfg f (joinParts rootParts f.name) f.name
      else none
    else none)

/- ================================================================
   Git change extractor (`LocalScanner.get_git_changes`,
   `LocalScanner.get_staged_changes`).  The git library is embedded at
   its call boundary: a repository carries the data the two functions
   consume, and the library's diff operations are embedded following
   their documented behaviour (see the comments on `nullTreeDiff` and
   `rawIndexDiff`).
   ================================================================ -/

structure GitChange where
  filename : String
  status : String
  diff : Option String
  content : Option String
deriving DecidableEq, Repr

/-- One entry of a git diff as the git library presents it (raw format,
`create_patch=False`, so the patch byte-string is empty and the decoded diff
text is `none`). -/
structure DiffEntry where
  a_path : Option String
  b_path : Option String
  new_file : Bool
  deleted_file : Bool
  renamed : Bool
  diffText : Option String
deriving DecidableEq, Repr

structure Commit where
  files : List (String × String)
deriving DecidableEq, Repr

/-- The repository state consumed by the extractor. `resolve` is
`repo.commit(ref)` (`none` models a `BadName` error, e.g. `HEAD~1` on a root
commit); `rangeDiff` is `base_commit.diff(head_ref)` for a resolvable base;
`indexFiles` is the staged index; `worktree` is a read of
`repo_path/filename` (`none` models an `IOError`). -/
structure GitRepo where
  path : String
  valid : Bool
  resolve : String → Option Commit
  headCommit : Commit
  indexFiles : List (String × String)
  rangeDiff : Commit → String → List DiffEntry
  worktree : String → Option String

/-- Embedding of `repo.head.commit.diff(NULL_TREE)`: the git library runs
`git diff-tree --root -r <head>`, so for a root commit every tracked file
appears as an added entry (`new_file`, `a_path = None`). Behaviour of the
external git collaborator, embedded from its documentation. -/
def nullTreeDiff (c : Commit) : List DiffEntry :=
  c.files.map (fun f => ⟨none, some f.1, true, false, false, none⟩)

def lookupFile (files : List (String × String)) (n : String) : Option String :=
  match files.find? (fun f => f.1 == n) with
  | none => none
  | some f => some f.2

/-- Raw-format diff of `old` against `new`: a path only in `old` is a deleted
entry (`b_path = None`), a path only in `new` is an added entry
(`a_path = None`), a path in both with changed blob is a modified entry.
Behaviour of the external git collaborator (raw diff classification). -/
def rawDiff (old new : List (String × String)) : List DiffEntry :=
  (old.filterMap (fun f =>
    match lookupFile new f.1 with
    | none => some ⟨some f.1, none, false, true, false, none⟩
    | some t => if t ≠ f.2 then some ⟨some f.1, some f.1, false, false, false, none⟩
                else none)) ++
  (new.filterMap (fun f =>
    if (lookupFile old f.1).isNone then some ⟨none, some f.1, true, false, false, none⟩
    else none))

/-- Embedding of `repo.index.diff("HEAD")`: the index file delegates to
`head_commit.diff(Index)` with the `R` flag INVERTED, so the resulting diff
runs FROM the index TO the `HEAD` tree — `old` is the index and `new` is the
`HEAD` tree. Behaviour of the external git collaborator, embedded from its
documentation (a staged addition therefore surfaces as a deleted entry and a
staged deletion as an added entry). -/
def rawIndexDiff (repo : GitRepo) : List DiffEntry :=
  rawDiff repo.indexFiles repo.headCommit.files

/-- The per-entry body of the loop in `get_git_changes`: filename from
`diff.b_path or diff.a_path`, pattern filter on that (repository-relative)
path, status classification, diff text, and a working-tree content read for
non-deleted files whose `IOError` is caught and leaves the content `None`. -/
def processDiff (cfg : ReviewConfig) (worktree : String → Option String)
    (withRename : Bool) (d : DiffEntry) : Option GitChange :=
  let filename := d.b_path.getD (d.a_path.getD "")
  if !should_include cfg filename then none
  else
    let status :=
      if d.new_file then "A"
      else if d.deleted_file then "D"
      else if withRename && d.renamed then "R"
      else "M"
    let content := if status ≠ "D" then worktree filename else none
    some ⟨filename, status, d.diffText, content⟩

/-- Embedding of `LocalScanner.get_git_changes`: a `ValueError` (modelled as `Except.error`)
when the path is not a valid repository; otherwise diff the resolved base
against the head ref, falling back to the empty-tree diff of the head commit
when the base ref raises `BadName`; then classify each entry. -/
def get_git_changes (cfg : ReviewConfig) (repo : GitRepo)
    (base_ref head_ref : String) : Except String (List GitChange) :=
  if !repo.valid then Except.error (repo.path ++ " is not a valid git repository")
  else
    let diffs :=
      match repo.resolve base_ref with
      | some c => repo.rangeDiff c head_ref
      | none => nullTreeDiff repo.headCommit
    Except.ok (diffs.filterMap (processDiff cfg repo.worktree true))

/-- Embedding of `LocalScanner.get_staged_changes`: same validity check, then the
index-vs-HEAD diff (`repo.index.diff("HEAD")`, see `rawIndexDiff`) classified
without the rename branch. -/
def get_staged_changes (cfg : ReviewConfig) (repo : GitRepo) :
    Except String (List GitChange) :=
  if !repo.valid then Except.error (repo.path ++ " is not a valid git repository")
  else Except.ok ((rawIndexDiff repo).filterMap (processDiff cfg repo.worktree false))

/- ================================================================
   Review orchestrator (`agent/reviewer.py`).  The external LLM calls
   are oracles: `ReviewCall` is `OpenAIClient.review_code` (arguments
   `code`, `filename`, `context`, `diff_mode`; `Except.error e` models
   a raised exception whose `str(e)` is `e`), and `SummarizeCall` is
   `OpenAIClient.summarize_reviews` on the `(filename, feedback)`
   pairs.  The progress-bar branch and the silent branch of each loop
   are the same computation, so one loop embeds both.  The loop state
   additionally records every `review_code` invocation (`calls`), an
   observer that changes nothing else.
   ================================================================ -/

structure ReviewResult where
  filename : String
  feedback : String
  status : String
deriving DecidableEq, Repr

structure ReviewReport where
  results : List ReviewResult
  summary : Option String
  total_files : Nat
  reviewed_files : Nat
  skipped_files : Nat
deriving DecidableEq, Repr

abbrev ReviewCall := String → String → Option String → Bool → Except String String
abbrev SummarizeCall := List (String × String) → String

structure CallRec where
  code : String
  filename : String
  context : Option String
  diff_mode : Bool
deriving DecidableEq, Repr

structure LoopState where
  results : List ReviewResult
  reviewed : Nat
  skipped : Nat
  calls : List CallRec
deriving DecidableEq, Repr

def initState : LoopState := ⟨[], 0, 0, []⟩

/-- The summarization argument:
`[{"filename": ..., "feedback": ...} for r in results if r.status == "success"]`. -/
def successPairs (rs : List ReviewResult) : List (String × String) :=
  (rs.filter (fun r => r.status == "success")).map (fun r => (r.filename, r.feedback))

/-- Python truthiness of an optional string (`None` and `""` are falsy). -/
def truthy : Option String → Bool
  | none => false
  | some s => s != ""

/- ---------------- `_review_file_list` ---------------- -/

/-- One iteration of the `_review_file_list` loop: call
`review_code(code=content, filename=relative_path)`; on success append a
success result and bump `reviewed`; on an exception append an error result
whose feedback is `str(e)` and bump `skipped`. -/
def fileStep (call : ReviewCall) (st : LoopState) (fi : FileInfo) : LoopState :=
  match call fi.content fi.relative_path none false with
  | Except.ok fb =>
    ⟨st.results ++ [⟨fi.relative_path, fb, "success"⟩], st.reviewed + 1, st.skipped,
     st.calls ++ [⟨fi.content, fi.relative_path, none, false⟩]⟩
  | Except.error e =>
    ⟨st.results ++ [⟨fi.relative_path, e, "error"⟩], st.reviewed, st.skipped + 1,
     st.calls ++ [⟨fi.content, fi.relative_path, none, false⟩]⟩

def fileLoop (call : ReviewCall) (files : List FileInfo) : LoopState :=
  files.foldl (fileStep call) initState

/-- Embedding of `_review_file_list`: run the loop over every file, then
`if results: summary = summarize_reviews(successPairs results)`, and assemble
the report with `total_files = len(files)`. -/
def review_file_list (call : ReviewCall) (smz : SummarizeCall)
    (files : List FileInfo) : ReviewReport :=
  let st := fileLoop call files
  ⟨st.results,
   if st.results.isEmpty then none else some (smz (successPairs st.results)),
   files.length, st.reviewed, st.skipped⟩

/-- The summarization invocations of `_review_file_list` (zero or one,
guarded by `if results:`, with the success pairs as argument). -/
def file_summarize_calls (call : ReviewCall) (files : List FileInfo) :
    List (List (String × String)) :=
  let st := fileLoop call files
  if st.results.isEmpty then [] else [successPairs st.results]

/- ---------------- `_review_git_changes` ---------------- -/

/-- The code sent for a git change: `change.diff or change.content`, skipped
when falsy (`if not code: skipped += 1; continue`). -/
def pyCode (c : GitChange) : Option String :=
  if truthy c.diff then c.diff
  else if truthy c.content then c.content
  else none

/-- One iteration of the `_review_git_changes` loop: skip (counting it) when
`diff or content` is falsy, otherwise call
`review_code(code, filename, diff_mode=bool(change.diff))` with the usual
success/error accounting. -/
def gitStep (call : ReviewCall) (st : LoopState) (c : GitChange) : LoopState :=
  match pyCode c with
  | none => ⟨st.results, st.reviewed, st.skipped + 1, st.calls⟩
  | some code =>
    match call code c.filename none (truthy c.diff) with
    | Except.ok fb =>
      ⟨st.results ++ [⟨c.filename, fb, "success"⟩], st.reviewed + 1, st.skipped,
       st.calls ++ [⟨code, c.filename, none, truthy c.diff⟩]⟩
    | Except.error e =>
      ⟨st.results ++ [⟨c.filename, e, "error"⟩], st.reviewed, st.skipped + 1,
       st.calls ++ [⟨code, c.filename, none, truthy c.diff⟩]⟩

/-- Embedding of `changes_to_review = [c for c in changes if c.status != "D"]`. -/
def gitToReview (changes : List GitChange) : List GitChange :=
  changes.filter (fun c => c.status != "D")

def gitLoop (call : ReviewCall) (changes : List GitChange) : LoopState :=
  (gitToReview changes).foldl (gitStep call) initState

/-- Embedding of `_review_git_changes`: filter out deleted changes, run the loop, then the
summary guard and the report with `total_files = len(changes)`. -/
def review_git_changes (call : ReviewCall) (smz : SummarizeCall)
    (changes : List GitChange) : ReviewReport :=
  let st := gitLoop call changes
  ⟨st.results,
   if st.results.isEmpty then none else some (smz (successPairs st.results)),
   changes.length, st.reviewed, st.skipped⟩

/-- The `review_code` invocations performed by `_review_git_changes`. -/
def git_review_calls (call : ReviewCall) (changes : List GitChange) :
    List CallRec :=
  (gitLoop call changes).calls

/-- The summarization invocations of `_review_git_changes`. -/
def git_summarize_calls (call : ReviewCall) (changes : List GitChange) :
    List (List (String × String)) :=
  let st := gitLoop call changes
  if st.results.isEmpty then [] else [successPairs st.results]

/- ---------------- `review_pr` ---------------- -/

structure PRFile where
  filename : String
  status : String
  patch : Option String
  additions : Nat
  deletions : Nat
deriving DecidableEq, Repr

structure PRInfo where
  number : Nat
  title : String
  body : Option String
  files : List PRFile
deriving DecidableEq, Repr

/-- The PR review context string built by `review_pr` from title and body. -/
def prContext (pr : PRInfo) : String :=
  "PR: " ++ pr.title ++ "\n" ++ pr.body.getD ""

/-- Embedding of `files_to_review = [f for f in pr_info.files if f.patch and f.status != "removed"]`. -/
def prFilesToReview (pr : PRInfo) : List PRFile :=
  pr.files.filter (fun f => truthy f.patch && f.status != "removed")

/-- One iteration of the `review_pr` loop:
`review_code(code=patch, filename, context, diff_mode=True)`. -/
def prStep (call : ReviewCall) (ctx : String) (st : LoopState) (f : PRFile) :
    LoopState :=
  match call (f.patch.getD "") f.filename (some ctx) true with
  | Except.ok fb =>
    ⟨st.results ++ [⟨f.filename, fb, "success"⟩], st.reviewed + 1, st.skipped,
     st.calls ++ [⟨f.patch.getD "", f.filename, some ctx, true⟩]⟩
  | Except.error e =>
    ⟨st.results ++ [⟨f.filename, e, "error"⟩], st.reviewed, st.skipped + 1,
     st.calls ++ [⟨f.patch.getD "", f.filename, some ctx, true⟩]⟩

def prLoop (call : ReviewCall) (pr : PRInfo) : LoopState :=
  (prFilesToReview pr).foldl (prStep call (prContext pr)) initState

/-- Embedding of `review_pr` (its report assembly): loop over the filtered files, summary
guard, report with `total_files = len(pr_info.files)`. -/
def review_pr (call : ReviewCall) (smz : SummarizeCall) (pr : PRInfo) :
    ReviewReport :=
  let st := prLoop call pr
  ⟨st.results,
   if st.results.isEmpty then none else some (smz (successPairs st.results)),
   pr.files.length, st.reviewed, st.skipped⟩

/-- The `review_code` invocations performed by `review_pr`. -/
def pr_review_calls (call : ReviewCall) (pr : PRInfo) : List CallRec :=
  (prLoop call pr).calls

/- ================================================================
   Derived views of the loops, used to state the properties: the
   result, call record and success test of one item, and the list of
   items that actually reach the external review call.
   ================================================================ -/

def fileResult (call : ReviewCall) (fi : FileInfo) : ReviewResult :=
  match call fi.content fi.relative_path none false with
  | Except.ok fb => ⟨fi.relative_path, fb, "success"⟩
  | Except.error e => ⟨fi.relative_path, e, "error"⟩

def fileCallRec (fi : FileInfo) : CallRec :=
  ⟨fi.content, fi.relative_path, none, false⟩

def fileOk (call : ReviewCall) (fi : FileInfo) : Bool :=
  match call fi.content fi.relative_path none false with
  | Except.ok _ => true
  | Except.error _ => false

/-- The git changes that reach the external review call: not deleted, and
with a truthy `diff or content`. -/
def gitDispatched (changes : List GitChange) : List GitChange :=
  (gitToReview changes).filter (fun c => (pyCode c).isSome)

def gitResultOf (call : ReviewCall) (c : GitChange) : ReviewResult :=
  match call ((pyCode c).getD "") c.filename none (truthy c.diff) with
  | Except.ok fb => ⟨c.filename, fb, "success"⟩
  | Except.error e => ⟨c.filename, e, "error"⟩

def gitCallRec (c : GitChange) : CallRec :=
  ⟨(pyCode c).getD "", c.filename, none, truthy c.diff⟩

def gitOk (call : ReviewCall) (c : GitChange) : Bool :=
  match call ((pyCode c).getD "") c.filename none (truthy c.diff) with
  | Except.ok _ => true
  | Except.error _ => false

def prResultOf (call : ReviewCall) (ctx : String) (f : PRFile) : ReviewResult :=
  match call (f.patch.getD "") f.filename (some ctx) true with
  | Except.ok fb => ⟨f.filename, fb, "success"⟩
  | Except.error e => ⟨f.filename, e, "error"⟩

def prCallRec (ctx : String) (f : PRFile) : CallRec :=
  ⟨f.patch.getD "", f.filename, some ctx, true⟩

def prOk (call : ReviewCall) (ctx : String) (f : PRFile) : Bool :=
  match call (f.patch.getD "") f.filename (some ctx) true with
  | Except.ok _ => true
  | Except.error _ => false

/-- A glob pattern that can only match names containing a path separator:
its token list contains the separator as a literal. -/
def litSlash (p : String) : Bool :=
  decide (GlobTok.lit '/' ∈ parseGlob p.data)

/-- The configuration with the literal-separator patterns removed from both
lists (they can never match a base name during a directory scan). -/
def dropSlashPatterns (cfg : ReviewConfig) : ReviewConfig :=
  ⟨cfg.include_patterns.filter (fun p => !litSlash p),
   cfg.exclude_patterns.filter (fun p => !litSlash p),
   cfg.max_file_size⟩

/- ================================================================
   Concrete instances used by the closed counterexample and witness
   statements.
   ================================================================ -/

/-- The default `ReviewConfig` of config.py. -/
def defaultReviewConfig : ReviewConfig :=
  ⟨["*.py", "*.js", "*.ts", "*.jsx", "*.tsx",
    "*.java", "*.go", "*.rs", "*.cpp", "*.c",
    "*.rb", "*.php", "*.swift", "*.kt"],
   ["*.min.js", "*.bundle.js", "package-lock.json",
    "yarn.lock", "*.lock", "*.generated.*"],
   100000⟩

def fileC2 : FileInfo := ⟨"/r/a.py", "a.py", "x = 1", 5⟩

def callC2 : ReviewCall := fun _ _ _ _ => Except.error "boom"

def smzC2 : SummarizeCall := fun _ => "CALLED"

def cfgC3 : ReviewConfig := ⟨["*.py"], [], 100000⟩

/-- A valid repository whose history is a single root commit tracking only
`README.md`: `HEAD~1` does not resolve. -/
def repoC3 : GitRepo :=
  ⟨"/repo", true, fun _ => none, ⟨[("README.md", "hello")]⟩, [],
   fun _ _ => [], fun _ => none⟩

/-- A valid single-root-commit repository tracking `a.py`, for the amended
fallback statement. -/
def repoC3w : GitRepo :=
  ⟨"/repo", true, fun _ => none, ⟨[("a.py", "x = 1")]⟩, [],
   fun _ _ => [], fun n => if n == "a.py" then some "x = 1" else none⟩

def cfgC4 : ReviewConfig := ⟨["*.py"], [], 100000⟩

/-- HEAD tree of the C4 scenario: tracks only `y.py`. -/
def headC4 : Commit := ⟨[("y.py", "old")]⟩

/-- The C4 scenario: one staged new file `x.py` (in the index, not in HEAD)
and one staged deletion `y.py` (in HEAD, removed from index and worktree). -/
def repoC4 : GitRepo :=
  ⟨"/repo", true, fun _ => some headC4, headC4, [("x.py", "print(1)")],
   fun _ _ => [], fun n => if n == "x.py" then some "print(1)" else none⟩

def filesC1 : List FileInfo :=
  [⟨"/r/a.py", "a.py", "code-a", 6⟩, ⟨"/r/b.py", "b.py", "code-b", 6⟩,
   ⟨"/r/c.py", "c.py", "code-c", 6⟩]

/-- Review oracle that fails exactly on `b.py` (item index 1 of `filesC1`). -/
def callC1 : ReviewCall := fun _ fn _ _ =>
  if fn == "b.py" then Except.error "timeout" else Except.ok "looks good"

def smzC1 : SummarizeCall := fun _ => "summary"

def changesC1 : List GitChange :=
  [⟨"a.py", "M", some "diff-a", some "code-a"⟩,
   ⟨"b.py", "M", none, some "code-b"⟩,
   ⟨"c.py", "A", some "diff-c", some "code-c"⟩]

def callC1g : ReviewCall := fun _ fn _ _ =>
  if fn == "b.py" then Except.error "timeout" else Except.ok "fine"

def repoC9 : GitRepo :=
  ⟨"/not/a/repo", false, fun _ => none, ⟨[]⟩, [], fun _ _ => [], fun _ => none⟩

def cfgC9 : ReviewConfig := ⟨["*.py"], [], 100000⟩

def cfgC10 : ReviewConfig := ⟨["[!/]*"], [], 100000⟩

def fsC10 : List FSFile := [⟨[], "a.py", some 4, some "code"⟩]

def cfgC10w : ReviewConfig := ⟨["src/*.py", "*.py"], ["docs/*"], 100000⟩

def fsC10w : List FSFile := [⟨[], "a.py", some 4, some "code"⟩]

def fC8big : FSFile := ⟨[], "big.py", some 100001, some "x"⟩

def fC8bad : FSFile := ⟨[], "bad.py", some 3, none⟩

def cfgC8 : ReviewConfig := ⟨["*.py"], [], 100000⟩

def changesC7 : List GitChange :=
  [⟨"a.py", "M", some "diff-a", some "code-a"⟩,
   ⟨"gone.py", "D", some "diff-g", none⟩,
   ⟨"empty.py", "M", none, some ""⟩]

def callC7 : ReviewCall := fun _ _ _ _ => Except.ok "fine"

def cfgC10g : ReviewConfig := ⟨["src/*.py"], [], 100000⟩

/-- Single-root-commit repository tracking the slashed path `src/a.py`; git
change extraction matches patterns against this full repository-relative
path. -/
def repoC10 : GitRepo :=
  ⟨"/repo", true, fun _ => none, ⟨[("src/a.py", "x = 1")]⟩, [],
   fun _ _ => [], fun n => if n == "src/a.py" then some "x = 1" else none⟩

/- ================================================================
   Loop characterization lemmas: each orchestrator loop appends one
   result and one call record per dispatched item, in input order, and
   bumps exactly one of the two counters per iteration.
   ================================================================ -/

theorem fileLoop_foldl (call : ReviewCall) (files : List FileInfo) (st : LoopState) :
    files.foldl (fileStep call) st =
      ⟨st.results ++ files.map (fileResult call),
       st.reviewed + files.countP (fun fi => fileOk call fi),
       st.skipped + files.countP (fun fi => !fileOk call fi),
       st.calls ++ files.map fileCallRec⟩ := by
  induction files generalizing st with
  | nil => simp
  | cons f fs ih =>
    rw [List.foldl_cons, ih]
    cases h : call f.content f.relative_path none false <;>
      simp [fileStep, fileResult, fileOk, fileCallRec, h, List.countP_cons] <;>
      omega

theorem fileLoop_eq (call : ReviewCall) (files : List FileInfo) :
    fileLoop call files =
      ⟨files.map (fileResult call),
       files.countP (fun fi => fileOk call fi),
       files.countP (fun fi => !fileOk call fi),
       files.map fileCallRec⟩ := by
  simpa [fileLoop, initState] using fileLoop_foldl call files initState

theorem gitLoop_foldl (call : ReviewCall) (l : List GitChange) (st : LoopState) :
    l.foldl (gitStep call) st =
      ⟨st.results ++ (l.filter (fun c => (pyCode c).isSome)).map (gitResultOf call),
       st.reviewed + l.countP (fun c => (pyCode c).isSome && gitOk call c),
       st.skipped + l.countP (fun c => !((pyCode c).isSome && gitOk call c)),
       st.calls ++ (l.filter (fun c => (pyCode c).isSome)).map gitCallRec⟩ := by
  induction l generalizing st with
  | nil => simp
  | cons c cs ih =>
    rw [List.foldl_cons, ih]
    cases hp : pyCode c with
    | none =>
      simp [gitStep, hp, List.countP_cons]
      omega
    | some code =>
      cases h : call code c.filename none (truthy c.diff) <;>
        simp [gitStep, gitResultOf, gitOk, gitCallRec, hp, h, List.countP_cons] <;>
        omega

theorem gitLoop_eq (call : ReviewCall) (changes : List GitChange) :
    gitLoop call changes =
      ⟨(gitDispatched changes).map (gitResultOf call),
       (gitToReview changes).countP (fun c => (pyCode c).isSome && gitOk call c),
       (gitToReview changes).countP (fun c => !((pyCode c).isSome && gitOk call c)),
       (gitDispatched changes).map gitCallRec⟩ := by
  simpa [gitLoop, gitDispatched, initState] using
    gitLoop_foldl call (gitToReview changes) initState

theorem prLoop_foldl (call : ReviewCall) (ctx : String) (l : List PRFile)
    (st : LoopState) :
    l.foldl (prStep call ctx) st =
      ⟨st.results ++ l.map (prResultOf call ctx),
       st.reviewed + l.countP (fun f => prOk call ctx f),
       st.skipped + l.countP (fun f => !prOk call ctx f),
       st.calls ++ l.map (prCallRec ctx)⟩ := by
  induction l generalizing st with
  | nil => simp
  | cons f fs ih =>
    rw [List.foldl_cons, ih]
    cases h : call (f.patch.getD "") f.filename (some ctx) true <;>
      simp [prStep, prResultOf, prOk, prCallRec, h, List.countP_cons] <;>
      omega

theorem prLoop_eq (call : ReviewCall) (pr : PRInfo) :
    prLoop call pr =
      ⟨(prFilesToReview pr).map (prResultOf call (prContext pr)),
       (prFilesToReview pr).countP (fun f => prOk call (prContext pr) f),
       (prFilesToReview pr).countP (fun f => !prOk call (prContext pr) f),
       (prFilesToReview pr).map (prCallRec (prContext pr))⟩ := by
  simpa [prLoop, initState] using
    prLoop_foldl call (prContext pr) (prFilesToReview pr) initState

/- ================================================================
   Small helper lemmas.
   ================================================================ -/

theorem countP_add_countP_not {α : Type} (p : α → Bool) (l : List α) :
    l.countP p + l.countP (fun a => !p a) = l.length := by
  induction l with
  | nil => rfl
  | cons a t ih => cases h : p a <;> simp [List.countP_cons, h] <;> omega

theorem fileResult_status (call : ReviewCall) (fi : FileInfo) :
    ((fileResult call fi).status == "success") = fileOk call fi := by
  cases h : call fi.content fi.relative_path none false <;>
    simp [fileResult, fileOk, h]

theorem gitResult_status (call : ReviewCall) (c : GitChange) :
    ((gitResultOf call c).status == "success") = gitOk call c := by
  cases h : call ((pyCode c).getD "") c.filename none (truthy c.diff) <;>
    simp [gitResultOf, gitOk, h]

theorem prResult_status (call : ReviewCall) (ctx : String) (f : PRFile) :
    ((prResultOf call ctx f).status == "success") = prOk call ctx f := by
  cases h : call (f.patch.getD "") f.filename (some ctx) true <;>
    simp [prResultOf, prOk, h]

theorem truthy_isSome {o : Option String} (h : truthy o = true) : o.isSome := by
  cases o <;> simp_all [truthy]

theorem pyCode_isSome_of_content {c : GitChange} (h : truthy c.content = true) :
    (pyCode c).isSome := by
  unfold pyCode
  cases hd : truthy c.diff
  · simp [hd, h, truthy_isSome h]
  · simpa [hd] using truthy_isSome hd

/- ================================================================
   C5 — exclude precedence of the pattern matcher.
   ================================================================ -/

/-- C5: for every filename and pattern set, a filename matching any exclude
pattern makes `_should_include` return false regardless of the include list;
otherwise it returns true exactly when some include pattern matches (no
match at all means excluded by default). -/
theorem C5_exclude_precedence (inc exc : List String) (m : Nat) (fn : String) :
    ((∃ p ∈ exc, fnmatch p fn = true) →
        should_include ⟨inc, exc, m⟩ fn = false) ∧
    ((∀ p ∈ exc, fnmatch p fn = false) →
        (should_include ⟨inc, exc, m⟩ fn = true ↔ ∃ p ∈ inc, fnmatch p fn = true)) := by
  constructor
  · intro h
    have hx : exc.any (fun p => fnmatch p fn) = true := List.any_eq_true.mpr h
    simp [should_include, hx]
  · intro h
    have hx : exc.any (fun p => fnmatch p fn) = false := by
      rcases hcontra : exc.any (fun p => fnmatch p fn) with _ | _
      · rfl
      · rcases List.any_eq_true.mp hcontra with ⟨p, hp, hm⟩
        rw [h p hp] at hm
        exact absurd hm (by simp)
    simp [should_include, hx, List.any_eq_true]

/-- Witness for C5 at a concrete pattern set and two filenames. -/
theorem C5_exclude_precedence_witness :
    (should_include ⟨["*.py"], ["*.lock"], 100000⟩ "poetry.lock" = false) ∧
    (should_include ⟨["*.py"], ["*.lock"], 100000⟩ "a.py" = true ↔
        ∃ p ∈ ["*.py"], fnmatch p "a.py" = true) :=
  ⟨(C5_exclude_precedence ["*.py"] ["*.lock"] 100000 "poetry.lock").1
      ⟨"*.lock", by decide, by decide⟩,
   (C5_exclude_precedence ["*.py"] ["*.lock"] 100000 "a.py").2 (by decide)⟩

/- ================================================================
   C6 — the report counters.
   ================================================================ -/

/-- C6: for every input sequence and every behaviour of the external review
call, the final report of each orchestrator satisfies
`total_files ≥ reviewed_files + skipped_files`, where `reviewed_files` is the
number of Success results (proved as an equality here) and `skipped_files`
counts the non-Success outcomes. -/
theorem C6_total_files_bound :
    (∀ (call : ReviewCall) (smz : SummarizeCall) (files : List FileInfo),
      (review_file_list call smz files).reviewed_files +
          (review_file_list call smz files).skipped_files ≤
        (review_file_list call smz files).total_files ∧
      (review_file_list call smz files).reviewed_files =
        ((review_file_list call smz files).results.filter
          (fun r => r.status == "success")).length) ∧
    (∀ (call : ReviewCall) (smz : SummarizeCall) (changes : List GitChange),
      (review_git_changes call smz changes).reviewed_files +
          (review_git_changes call smz changes).skipped_files ≤
        (review_git_changes call smz changes).total_files ∧
      (review_git_changes call smz changes).reviewed_files =
        ((review_git_changes call smz changes).results.filter
          (fun r => r.status == "success")).length) ∧
    (∀ (call : ReviewCall) (smz : SummarizeCall) (pr : PRInfo),
      (review_pr call smz pr).reviewed_files +
          (review_pr call smz pr).skipped_files ≤
        (review_pr call smz pr).total_files ∧
      (review_pr call smz pr).reviewed_files =
        ((review_pr call smz pr).results.filter
          (fun r => r.status == "success")).length) := by
  refine ⟨fun call smz files => ⟨?_, ?_⟩, fun call smz changes => ⟨?_, ?_⟩,
    fun call smz pr => ⟨?_, ?_⟩⟩
  · simp [review_file_list, fileLoop_eq, countP_add_countP_not]
  · simp [review_file_list, fileLoop_eq, List.filter_map, List.countP_eq_length_filter,
      Function.comp_def, fileResult_status]
  · calc (review_git_changes call smz changes).reviewed_files +
          (review_git_changes call smz changes).skipped_files
        = (gitToReview changes).length := by
          simp only [review_git_changes, gitLoop_eq]
          exact countP_add_countP_not _ _
      _ ≤ changes.length := List.length_filter_le _ _
      _ = (review_git_changes call smz changes).total_files := by
          simp [review_git_changes]
  · simp [review_git_changes, gitLoop_eq, gitDispatched, List.filter_map,
      List.countP_eq_length_filter, Function.comp_def, gitResult_status,
      List.countP_filter, Bool.and_comm]
  · calc (review_pr call smz pr).reviewed_files + (review_pr call smz pr).skipped_files
        = (prFilesToReview pr).length := by
          simp [review_pr, prLoop_eq, countP_add_countP_not]
      _ ≤ pr.files.length := List.length_filter_le _ _
      _ = (review_pr call smz pr).total_files := by simp [review_pr]
  · simp [review_pr, prLoop_eq, List.filter_map, List.countP_eq_length_filter,
      Function.comp_def, prResult_status]

/- ================================================================
   C7 — deleted items are never dispatched.
   ================================================================ -/

/-- C7: in `_review_git_changes` every item that reaches the external review
call is non-deleted with a truthy `diff or content`; the call log and the
result list are exactly one entry per dispatched item, so no review call is
made and no Success/Error result is created for a deleted item, an item whose
content and diff are both empty, or a pull-request file with status
`removed` (mirrored for `review_pr`). -/
theorem C7_deleted_never_dispatched :
    (∀ changes : List GitChange,
      (gitDispatched changes).all
        (fun c => (c.status != "D") && (pyCode c).isSome) = true) ∧
    (∀ (call : ReviewCall) (changes : List GitChange),
      git_review_calls call changes = (gitDispatched changes).map gitCallRec) ∧
    (∀ (call : ReviewCall) (smz : SummarizeCall) (changes : List GitChange),
      (review_git_changes call smz changes).results =
        (gitDispatched changes).map (gitResultOf call)) ∧
    (∀ pr : PRInfo,
      (prFilesToReview pr).all
        (fun f => truthy f.patch && (f.status != "removed")) = true) ∧
    (∀ (call : ReviewCall) (pr : PRInfo),
      pr_review_calls call pr = (prFilesToReview pr).map (prCallRec (prContext pr))) ∧
    (∀ (call : ReviewCall) (smz : SummarizeCall) (pr : PRInfo),
      (review_pr call smz pr).results =
        (prFilesToReview pr).map (prResultOf call (prContext pr))) := by
  refine ⟨?_, ?_, ?_, ?_, ?_, ?_⟩
  · intro changes
    simp only [List.all_eq_true, gitDispatched, gitToReview]
    intro c hc
    rcases List.mem_filter.mp hc with ⟨hc2, hsome⟩
    rcases List.mem_filter.mp hc2 with ⟨_, hd⟩
    simp [hd, hsome]
  · intro call changes
    simp [git_review_calls, gitLoop_eq]
  · intro call smz changes
    simp [review_git_changes, gitLoop_eq]
  · intro pr
    simp only [List.all_eq_true, prFilesToReview]
    intro f hf
    exact List.mem_filter.mp hf |>.2
  · intro call pr
    simp [pr_review_calls, prLoop_eq]
  · intro call smz pr
    simp [review_pr, prLoop_eq]

/- ================================================================
   C2 — when summarization is invoked.
   ================================================================ -/

/-- C2 as stated is false on the code: with a single item whose review call
raises, every result has status Error, yet the `if results:` guard still
invokes summarization — with the empty pair list — and the summary is
attached, not left empty. -/
theorem C2_counterexample :
    (review_file_list callC2 smzC2 [fileC2]).results.all
        (fun r => r.status == "error") = true ∧
    file_summarize_calls callC2 [fileC2] = [[]] ∧
    (review_file_list callC2 smzC2 [fileC2]).summary = some "CALLED" := by
  refine ⟨by decide, by decide, by decide⟩

/-- C2 amended: summarization is invoked exactly when at least one
ReviewResult exists (of any status) — for the file-list orchestrator that is
exactly when the input list is non-empty, for the git orchestrator exactly
when some change is dispatched — and its input is always the
`(filename, feedback)` pairs of the Success results in their original order
(possibly the empty list); the summary is left empty only when there are
zero results. -/
theorem C2_summarize_condition :
    (∀ (call : ReviewCall) (files : List FileInfo),
      file_summarize_calls call files = [] ↔ files = []) ∧
    (∀ (call : ReviewCall) (smz : SummarizeCall) (files : List FileInfo),
      (review_file_list call smz files).summary = none ↔ files = []) ∧
    (∀ (call : ReviewCall) (smz : SummarizeCall) (files : List FileInfo),
      ∀ l ∈ file_summarize_calls call files,
        l = successPairs (review_file_list call smz files).results) ∧
    (∀ (call : ReviewCall) (changes : List GitChange),
      git_summarize_calls call changes = [] ↔ gitDispatched changes = []) ∧
    (∀ (call : ReviewCall) (smz : SummarizeCall) (changes : List GitChange),
      ∀ l ∈ git_summarize_calls call changes,
        l = successPairs (review_git_changes call smz changes).results) := by
  refine ⟨?_, ?_, ?_, ?_, ?_⟩
  · intro call files
    simp [file_summarize_calls, fileLoop_eq]
  · intro call smz files
    simp [review_file_list, fileLoop_eq]
  · intro call smz files l hl
    simp only [file_summarize_calls] at hl
    rcases hif : (fileLoop call files).results.isEmpty with _ | _
    · simp [hif] at hl
      simp [review_file_list, hl]
    · simp [hif] at hl
  · intro call changes
    simp [git_summarize_calls, gitLoop_eq]
  · intro call smz changes l hl
    simp only [git_summarize_calls] at hl
    rcases hif : (gitLoop call changes).results.isEmpty with _ | _
    · simp [hif] at hl
      simp [review_git_changes, hl]
    · simp [hif] at hl

/-- Witness for the amended C2 at concrete inputs. -/
theorem C2_summarize_condition_witness :
    (([] : List (String × String)) =
        successPairs (review_file_list callC2 smzC2 [fileC2]).results) ∧
    (file_summarize_calls callC2 [] = [] ↔ ([] : List FileInfo) = []) :=
  ⟨C2_summarize_condition.2.2.1 callC2 smzC2 [fileC2] [] (by decide),
   C2_summarize_condition.1 callC2 []⟩

/- ================================================================
   C1 — per-item failure isolation with order preservation.
   ================================================================ -/

/-- C1: for a list of n reviewable items with non-empty content where the
review call fails (raises with message `msg`) exactly on item k and succeeds
on every other item, the report contains exactly n results in input order,
result k has status error with the failure description as feedback, and every
other result has status success — one item's failure never prevents later
items from being attempted.  Stated for `_review_file_list` and for
`_review_git_changes` (whose reviewable items are the non-deleted changes). -/
theorem C1_isolation_ordering :
    (∀ (call : ReviewCall) (smz : SummarizeCall) (files : List FileInfo)
        (k : Nat) (msg : String) (fbs : Nat → String),
      k < files.length →
      (∀ i (hi : i < files.length), (files.get ⟨i, hi⟩).content ≠ "") →
      (∀ i (hi : i < files.length),
        (i = k → call (files.get ⟨i, hi⟩).content
            (files.get ⟨i, hi⟩).relative_path none false = Except.error msg) ∧
        (i ≠ k → call (files.get ⟨i, hi⟩).content
            (files.get ⟨i, hi⟩).relative_path none false = Except.ok (fbs i))) →
      ((review_file_list call smz files).results.length = files.length ∧
       ∀ i (hi : i < files.length)
          (hi2 : i < (review_file_list call smz files).results.length),
        ((review_file_list call smz files).results.get ⟨i, hi2⟩).filename =
            (files.get ⟨i, hi⟩).relative_path ∧
        (i = k →
          ((review_file_list call smz files).results.get ⟨i, hi2⟩).status = "error" ∧
          ((review_file_list call smz files).results.get ⟨i, hi2⟩).feedback = msg) ∧
        (i ≠ k →
          ((review_file_list call smz files).results.get ⟨i, hi2⟩).status =
            "success"))) ∧
    (∀ (call : ReviewCall) (smz : SummarizeCall) (changes : List GitChange)
        (k : Nat) (msg : String) (fbs : Nat → String),
      k < changes.length →
      (∀ i (hi : i < changes.length),
        (changes.get ⟨i, hi⟩).status ≠ "D" ∧
        truthy (changes.get ⟨i, hi⟩).content = true) →
      (∀ i (hi : i < changes.length),
        (i = k → call ((pyCode (changes.get ⟨i, hi⟩)).getD "")
            (changes.get ⟨i, hi⟩).filename none
            (truthy (changes.get ⟨i, hi⟩).diff) = Except.error msg) ∧
        (i ≠ k → call ((pyCode (changes.get ⟨i, hi⟩)).getD "")
            (changes.get ⟨i, hi⟩).filename none
            (truthy (changes.get ⟨i, hi⟩).diff) = Except.ok (fbs i))) →
      ((review_git_changes call smz changes).results.length = changes.length ∧
       ∀ i (hi : i < changes.length)
          (hi2 : i < (review_git_changes call smz changes).results.length),
        ((review_git_changes call smz changes).results.get ⟨i, hi2⟩).filename =
            (changes.get ⟨i, hi⟩).filename ∧
        (i = k →
          ((review_git_changes call smz changes).results.get ⟨i, hi2⟩).status =
              "error" ∧
          ((review_git_changes call smz changes).results.get ⟨i, hi2⟩).feedback =
              msg) ∧
        (i ≠ k →
          ((review_git_changes call smz changes).results.get ⟨i, hi2⟩).status =
            "success"))) := by
  constructor
  · intro call smz files k msg fbs hk _ hbeh
    have hres : (review_file_list call smz files).results =
        files.map (fileResult call) := by
      simp [review_file_list, fileLoop_eq]
    refine ⟨by simp [hres], ?_⟩
    intro i hi hi2
    have hget : (review_file_list call smz files).results.get ⟨i, hi2⟩ =
        fileResult call (files.get ⟨i, hi⟩) := by
      simp [hres, List.get_eq_getElem, List.getElem_map]
    rw [List.get_eq_getElem] at hget
    by_cases hik : i = k
    · subst hik
      have hcall := (hbeh i hi).1 rfl
      simp [List.get_eq_getElem] at hcall
      simp [hget, fileResult, hcall, List.get_eq_getElem]
    · have hcall := (hbeh i hi).2 hik
      simp [List.get_eq_getElem] at hcall
      simp [hget, fileResult, hcall, hik, List.get_eq_getElem]
  · intro call smz changes k msg fbs hk hitems hbeh
    have hall : ∀ c ∈ changes, c.status ≠ "D" ∧ truthy c.content = true := by
      intro c hc
      rcases List.mem_iff_get.mp hc with ⟨⟨i, hi⟩, rfl⟩
      exact hitems i hi
    have htr : gitToReview changes = changes := by
      apply List.filter_eq_self.mpr
      intro c hc
      simpa using (hall c hc).1
    have hdp : gitDispatched changes = changes := by
      rw [gitDispatched, htr]
      apply List.filter_eq_self.mpr
      intro c hc
      simpa using pyCode_isSome_of_content (hall c hc).2
    have hres : (review_git_changes call smz changes).results =
        changes.map (gitResultOf call) := by
      simp [review_git_changes, gitLoop_eq, hdp]
    refine ⟨by simp [hres], ?_⟩
    intro i hi hi2
    have hget : (review_git_changes call smz changes).results.get ⟨i, hi2⟩ =
        gitResultOf call (changes.get ⟨i, hi⟩) := by
      simp [hres, List.get_eq_getElem, List.getElem_map]
    rw [List.get_eq_getElem] at hget
    by_cases hik : i = k
    · subst hik
      have hcall := (hbeh i hi).1 rfl
      simp [List.get_eq_getElem] at hcall
      simp [hget, gitResultOf, hcall, List.get_eq_getElem]
    · have hcall := (hbeh i hi).2 hik
      simp [List.get_eq_getElem] at hcall
      simp [hget, gitResultOf, hcall, hik, List.get_eq_getElem]

/-- Witness for C1: three concrete files (and three concrete git changes)
where the oracle fails exactly on the middle item. -/
theorem C1_isolation_ordering_witness :
    (review_file_list callC1 smzC1 filesC1).results.length = filesC1.length ∧
    (review_git_changes callC1g smzC1 changesC1).results.length =
      changesC1.length :=
  ⟨(C1_isolation_ordering.1 callC1 smzC1 filesC1 1 "timeout" (fun _ => "looks good")
      (by decide) (by decide) (by decide)).1,
   (C1_isolation_ordering.2 callC1g smzC1 changesC1 1 "timeout" (fun _ => "fine")
      (by decide) (by decide) (by decide)).1⟩

/- ================================================================
   C8 — oversized and unreadable files are silently dropped.
   ================================================================ -/

/-- C8: a file whose size exceeds `max_file_size` is dropped by `_read_file`
(`none`, not an error — the embedding returns an `Option`, mirroring the
`try/except` that absorbs every `IOError`/`OSError`), a file whose stat or
read fails is likewise dropped, and consequently every item of a directory
scan's output records a size within the limit and the successfully read
content of some file of the tree. -/
theorem C8_silent_drop :
    (∀ (cfg : ReviewConfig) (f : FSFile) (p r : String) (sz : Nat),
      f.size = some sz → cfg.max_file_size < sz → read_file cfg f p r = none) ∧
    (∀ (cfg : ReviewConfig) (f : FSFile) (p r : String),
      f.size = none → read_file cfg f p r = none) ∧
    (∀ (cfg : ReviewConfig) (f : FSFile) (p r : String),
      f.content = none → read_file cfg f p r = none) ∧
    (∀ (cfg : ReviewConfig) (rootParts : List String) (fs : List FSFile)
        (fi : FileInfo), fi ∈ scan_directory cfg rootParts fs →
      fi.size ≤ cfg.max_file_size ∧
      ∃ f ∈ fs, f.size = some fi.size ∧ f.content = some fi.content) := by
  refine ⟨?_, ?_, ?_, ?_⟩
  · intro cfg f p r sz hsz hgt
    simp [read_file, hsz, hgt]
  · intro cfg f p r hsz
    simp [read_file, hsz]
  · intro cfg f p r hc
    rcases hsz : f.size with _ | sz
    · simp [read_file, hsz]
    · rcases hle : decide (sz > cfg.max_file_size) with _ | _
      · simp at hle
        simp [read_file, hsz, hc, hle]
      · simp at hle
        simp [read_file, hsz, hc, hle]
  · intro cfg rootParts fs fi hfi
    rcases List.mem_filterMap.mp hfi with ⟨f, hf, hsome⟩
    rcases hskip : skipDir rootParts f.dirParts with _ | _
    · rcases hinc : should_include cfg f.name with _ | _
      · simp [hskip, hinc] at hsome
      · simp only [hskip, hinc, Bool.false_eq_true, if_false, if_true] at hsome
        rcases hsz : f.size with _ | sz
        · simp [read_file, hsz] at hsome
        · rcases hc : f.content with _ | c
          · rcases hle : decide (sz > cfg.max_file_size) with _ | _
            · simp at hle
              simp [read_file, hsz, hc, hle] at hsome
            · simp at hle
              simp [read_file, hsz, hc, hle] at hsome
          · by_cases hgt : sz > cfg.max_file_size
            · simp [read_file, hsz, hgt] at hsome
            · simp [read_file, hsz, hc, hgt] at hsome
              refine ⟨?_, f, hf, ?_, ?_⟩
              · rw [← hsome]
                simp
                omega
              · rw [← hsome]
                simpa using hsz
              · rw [← hsome]
                simpa using hc
    · simp [hskip] at hsome

/-- Witness for C8: an oversized file and an unreadable file are both
dropped. -/
theorem C8_silent_drop_witness :
    read_file cfgC8 fC8big "big.py" "big.py" = none ∧
    read_file cfgC8 fC8bad "bad.py" "bad.py" = none :=
  ⟨C8_silent_drop.1 cfgC8 fC8big "big.py" "big.py" 100001 rfl (by decide),
   C8_silent_drop.2.2.1 cfgC8 fC8bad "bad.py" "bad.py" rfl⟩

/- ================================================================
   C9 — invalid repository path.
   ================================================================ -/

/-- C9: on a path that is not a valid git repository, both extraction entry
points fail immediately — before any changes are computed — with an error
whose message names the offending path. -/
theorem C9_invalid_repo (cfg : ReviewConfig) (repo : GitRepo)
    (base_ref head_ref : String) (h : repo.valid = false) :
    get_git_changes cfg repo base_ref head_ref =
      Except.error (repo.path ++ " is not a valid git repository") ∧
    get_staged_changes cfg repo =
      Except.error (repo.path ++ " is not a valid git repository") := by
  constructor <;> simp [get_git_changes, get_staged_changes, h]

/-- Witness for C9 at a concrete invalid repository path. -/
theorem C9_invalid_repo_witness :
    get_git_changes cfgC9 repoC9 "HEAD~1" "HEAD" =
      Except.error (repoC9.path ++ " is not a valid git repository") ∧
    get_staged_changes cfgC9 repoC9 =
      Except.error (repoC9.path ++ " is not a valid git repository") :=
  C9_invalid_repo cfgC9 repoC9 "HEAD~1" "HEAD" rfl

/- ================================================================
   C3 — first-commit fallback of the ref-range diff.
   ================================================================ -/

theorem filterMap_guard {α β : Type} (p : α → Bool) (g : α → β) (l : List α) :
    l.filterMap (fun a => if p a then some (g a) else none) = (l.filter p).map g := by
  induction l with
  | nil => rfl
  | cons a t ih => cases h : p a <;> simp [h, ih]

/-- Characterization of the `BadName` fallback: on a valid repository whose
base ref does not resolve, the extractor diffs the head commit against the
empty tree and classifies every pattern-accepted tracked file as Added. -/
theorem get_git_changes_fallback (cfg : ReviewConfig) (repo : GitRepo)
    (base_ref head_ref : String)
    (hv : repo.valid = true) (hr : repo.resolve base_ref = none) :
    get_git_changes cfg repo base_ref head_ref =
      Except.ok
        ((repo.headCommit.files.filter (fun f => should_include cfg f.1)).map
          (fun f => GitChange.mk f.1 "A" none (repo.worktree f.1))) := by
  have hfun : ∀ f : String × String,
      processDiff cfg repo.worktree true ⟨none, some f.1, true, false, false, none⟩ =
        if should_include cfg f.1 then
          some (GitChange.mk f.1 "A" none (repo.worktree f.1))
        else none := by
    intro f
    cases h : should_include cfg f.1 <;> simp [processDiff, h]
  simp only [get_git_changes, hv, hr, Bool.not_true, Bool.false_eq_true, if_false,
    nullTreeDiff, List.filterMap_map, Function.comp_def]
  rw [List.filterMap_congr (fun f _ => hfun f), filterMap_guard]

/-- C3 as stated is false on the code: a valid single-root-commit repository
tracking `README.md` (with `HEAD~1` unresolvable) yields an EMPTY change
list under a configuration whose include patterns do not match that file —
the tracked file is not returned at all, because every candidate path is
filtered through the include/exclude patterns before inclusion. -/
theorem C3_counterexample :
    repoC3.valid = true ∧
    repoC3.resolve "HEAD~1" = none ∧
    ("README.md", "hello") ∈ repoC3.headCommit.files ∧
    get_git_changes cfgC3 repoC3 "HEAD~1" "HEAD" = Except.ok [] :=
  ⟨rfl, rfl, by decide, by decide⟩

/-- C3 amended: with `baseRef = "HEAD~1"` unresolvable (single root commit),
`get_git_changes` does not fail; it returns exactly the tracked files of the
head commit that pass the include/exclude pattern filter, each classified
Added (with the working-tree content attached when readable). -/
theorem C3_first_commit_fallback (cfg : ReviewConfig) (repo : GitRepo)
    (hv : repo.valid = true) (hr : repo.resolve "HEAD~1" = none) :
    get_git_changes cfg repo "HEAD~1" "HEAD" =
      Except.ok
        ((repo.headCommit.files.filter (fun f => should_include cfg f.1)).map
          (fun f => GitChange.mk f.1 "A" none (repo.worktree f.1))) :=
  get_git_changes_fallback cfg repo "HEAD~1" "HEAD" hv hr

/-- Witness for the amended C3: a single-root-commit repository tracking
`a.py`, which is returned as Added with its content. -/
theorem C3_first_commit_fallback_witness :
    get_git_changes cfgC3 repoC3w "HEAD~1" "HEAD" =
      Except.ok
        ((repoC3w.headCommit.files.filter (fun f => should_include cfgC3 f.1)).map
          (fun f => GitChange.mk f.1 "A" none (repoC3w.worktree f.1))) :=
  C3_first_commit_fallback cfgC3 repoC3w rfl rfl

/- ================================================================
   C4 — staged-changes classification.
   ================================================================ -/

/-- C4 is right about the intent and the code is wrong: on a repository with
one staged new file `x.py` and one staged deletion `y.py`, the code returns
`x.py` with status `"D"` and no content, and `y.py` with status `"A"`
(content unreadable, hence `None`) — the exact reverse of the claim.  The
git library's `index.diff("HEAD")` produces the diff FROM the index TO the
`HEAD` tree (it inverts the `R` flag), so `new_file` marks paths that exist
only in `HEAD` (staged deletions) and `deleted_file` marks paths that exist
only in the index (staged additions); the code's own field documentation
(`status: A (added) ... D (deleted)`) and the spec agree on the intended
meaning, which the code inverts. -/
theorem C4_staged_reversal :
    repoC4.indexFiles = [("x.py", "print(1)")] ∧
    repoC4.headCommit.files = [("y.py", "old")] ∧
    repoC4.worktree "x.py" = some "print(1)" ∧
    get_staged_changes cfgC4 repoC4 =
      Except.ok [⟨"x.py", "D", none, none⟩, ⟨"y.py", "A", none, none⟩] :=
  ⟨rfl, rfl, by decide, by decide⟩

/- ================================================================
   C10 — base-name matching in directory scans versus full-path
   matching in git change extraction.
   ================================================================ -/

/-- A literal token can only be matched by consuming that very character, so
a successful match forces the character into the name. -/
theorem matchToksF_lit (c : Char) :
    ∀ (fuel : Nat) (ts : List GlobTok) (s : List Char),
      GlobTok.lit c ∈ ts → matchToksF fuel ts s = true → c ∈ s := by
  intro fuel
  induction fuel with
  | zero =>
    intro ts s _ h
    simp [matchToksF] at h
  | succ n ih =>
    intro ts s hmem hm
    cases ts with
    | nil => simp at hmem
    | cons t ts2 =>
      cases t with
      | star =>
        have hmem2 : GlobTok.lit c ∈ ts2 := by
          rcases List.mem_cons.mp hmem with h | h
          · exact absurd h (by simp)
          · exact h
        simp only [matchToksF, Bool.or_eq_true] at hm
        rcases hm with hm | hm
        · exact ih ts2 s hmem2 hm
        · cases s with
          | nil => simp at hm
          | cons c1 cs =>
            exact List.mem_cons_of_mem c1 (ih (GlobTok.star :: ts2) cs hmem hm)
      | anyChar =>
        have hmem2 : GlobTok.lit c ∈ ts2 := by
          rcases List.mem_cons.mp hmem with h | h
          · exact absurd h (by simp)
          · exact h
        cases s with
        | nil => simp [matchToksF] at hm
        | cons c1 cs =>
          simp only [matchToksF] at hm
          exact List.mem_cons_of_mem c1 (ih ts2 cs hmem2 hm)
      | lit d =>
        cases s with
        | nil => simp [matchToksF] at hm
        | cons c1 cs =>
          simp only [matchToksF, Bool.and_eq_true, beq_iff_eq] at hm
          rcases List.mem_cons.mp hmem with h | h
          · have hcd : c = d := by
              simpa [GlobTok.lit.injEq] using h
            rw [List.mem_cons]
            left
            rw [hcd, hm.1]
          · exact List.mem_cons_of_mem c1 (ih ts2 cs h hm.2)
      | cls neg rs =>
        have hmem2 : GlobTok.lit c ∈ ts2 := by
          rcases List.mem_cons.mp hmem with h | h
          · exact absurd h (by simp)
          · exact h
        cases s with
        | nil => simp [matchToksF] at hm
        | cons c1 cs =>
          simp only [matchToksF, Bool.and_eq_true] at hm
          exact List.mem_cons_of_mem c1 (ih ts2 cs hmem2 hm.2)

/-- A pattern whose token list contains the separator as a literal never
matches a name without a separator. -/
theorem fnmatch_litSlash_false (p n : String) (hp : litSlash p = true)
    (hn : ∀ c ∈ n.data, c ≠ '/') : fnmatch p n = false := by
  rcases hf : fnmatch p n with _ | _
  · rfl
  · exfalso
    have hmem : GlobTok.lit '/' ∈ parseGlob p.data := of_decide_eq_true hp
    have : '/' ∈ n.data :=
      matchToksF_lit '/' ((parseGlob p.data).length + n.data.length + 1)
        (parseGlob p.data) n.data hmem hf
    exact hn '/' this rfl

theorem any_dropSlash (ps : List String) (n : String)
    (hn : ∀ c ∈ n.data, c ≠ '/') :
    (ps.filter (fun p => !litSlash p)).any (fun p => fnmatch p n) =
      ps.any (fun p => fnmatch p n) := by
  induction ps with
  | nil => rfl
  | cons p ps ih =>
    cases hl : litSlash p with
    | false => simp [hl, ih]
    | true => simp [hl, ih, fnmatch_litSlash_false p n hl hn]

theorem should_include_dropSlash (cfg : ReviewConfig) (n : String)
    (hn : ∀ c ∈ n.data, c ≠ '/') :
    should_include (dropSlashPatterns cfg) n = should_include cfg n := by
  simp only [should_include, dropSlashPatterns, any_dropSlash _ _ hn]

theorem read_file_dropSlash (cfg : ReviewConfig) (f : FSFile) (p r : String) :
    read_file (dropSlashPatterns cfg) f p r = read_file cfg f p r := by
  simp [read_file, dropSlashPatterns]

/-- C10 as stated is false: the pattern `[!/]*` contains a path separator
(inside a negated character class), yet it matches the separator-free base
name `a.py` and accepts that file during a directory scan. -/
theorem C10_counterexample :
    ('/' ∈ "[!/]*".data) ∧
    (∀ c ∈ "a.py".data, c ≠ '/') ∧
    fnmatch "[!/]*" "a.py" = true ∧
    scan_directory cfgC10 [] fsC10 = [⟨"a.py", "a.py", "code", 4⟩] :=
  ⟨by decide, by decide, by decide, by decide⟩

/-- C10 amended: in directory scans (recursive and non-recursive) the pattern
decision is applied to the file's base name only, so a pattern that requires
a LITERAL path separator never accepts any file there — removing all such
patterns from both lists leaves the scan output unchanged whenever base names
are separator-free — whereas git change extraction matches the same patterns
against the full repository-relative path of each change. -/
theorem C10_base_name_matching :
    (∀ (p n : String), litSlash p = true → (∀ c ∈ n.data, c ≠ '/') →
      fnmatch p n = false) ∧
    (∀ (cfg : ReviewConfig) (rootParts : List String) (fs : List FSFile),
      (∀ f ∈ fs, ∀ c ∈ f.name.data, c ≠ '/') →
      scan_directory (dropSlashPatterns cfg) rootParts fs =
        scan_directory cfg rootParts fs) ∧
    (∀ (cfg : ReviewConfig) (rootParts : List String) (fs : List FSFile),
      (∀ f ∈ fs, ∀ c ∈ f.name.data, c ≠ '/') →
      scan_directory_flat (dropSlashPatterns cfg) rootParts fs =
        scan_directory_flat cfg rootParts fs) ∧
    (∀ (cfg : ReviewConfig) (repo : GitRepo) (base_ref head_ref : String)
        (l : List GitChange),
      get_git_changes cfg repo base_ref head_ref = Except.ok l →
      ∀ c ∈ l, should_include cfg c.filename = true) := by
  refine ⟨fnmatch_litSlash_false, ?_, ?_, ?_⟩
  · intro cfg rootParts fs hfs
    apply List.filterMap_congr
    intro f hf
    rw [should_include_dropSlash cfg f.name (hfs f hf), read_file_dropSlash]
  · intro cfg rootParts fs hfs
    apply List.filterMap_congr
    intro f hf
    rw [should_include_dropSlash cfg f.name (hfs f hf), read_file_dropSlash]
  · intro cfg repo base_ref head_ref l hl c hc
    have hok : l = (match repo.resolve base_ref with
        | some cm => repo.rangeDiff cm head_ref
        | none => nullTreeDiff repo.headCommit).filterMap
          (processDiff cfg repo.worktree true) := by
      rcases hv : repo.valid with _ | _ <;> simp [get_git_changes, hv] at hl
      exact hl.symm
    rw [hok] at hc
    rcases List.mem_filterMap.mp hc with ⟨d, _, hd⟩
    rcases hinc : should_include cfg (d.b_path.getD (d.a_path.getD "")) with _ | _
    · simp [processDiff, hinc] at hd
    · simp only [processDiff, hinc, Bool.not_true, Bool.false_eq_true, if_false,
        Option.some.injEq] at hd
      rw [← hd]
      exact hinc

/-- Witness for the amended C10: a literal-separator pattern rejects a base
name, dropping such patterns leaves a concrete scan unchanged, and a git
change list is pattern-filtered on full slashed paths. -/
theorem C10_base_name_matching_witness :
    fnmatch "src/*.py" "a.py" = false ∧
    scan_directory (dropSlashPatterns cfgC10w) [] fsC10w =
      scan_directory cfgC10w [] fsC10w ∧
    should_include cfgC10g "src/a.py" = true :=
  ⟨C10_base_name_matching.1 "src/*.py" "a.py" (by decide) (by decide),
   C10_base_name_matching.2.1 cfgC10w [] fsC10w (by decide),
   C10_base_name_matching.2.2.2 cfgC10g repoC10 "HEAD~1" "HEAD"
     [⟨"src/a.py", "A", none, some "x = 1"⟩] (by decide)
     ⟨"src/a.py", "A", none, some "x = 1"⟩ (by decide)⟩

end ZhenReview
